import Mathlib

set_option linter.all false

/-!
Shallow embedding of the deno-datarule core (src/src/std.ts, newRule_* API,
with src/src/core.ts and src/src/util.ts) and proofs about its validators.
-/

namespace DataRule

/-- Model of a JavaScript runtime value, the untyped `data` argument of
`validate`.  Arrays and plain objects carry their own enumerable entries
in insertion order; a symbol is identified by a numeric id. -/
inductive JSValue where
  | str (s : String)
  | num (n : Int)
  | bool (b : Bool)
  | bigint (n : Int)
  | symbol (id : Nat)
  | undef
  | null
  | arr (elements : List JSValue)
  | obj (fields : List (String × JSValue))

/-- JavaScript `typeof data`: note `typeof null`, arrays and objects are all
"object". -/
def typeof : JSValue → String
  | .str _ => "string"
  | .num _ => "number"
  | .bool _ => "boolean"
  | .bigint _ => "bigint"
  | .symbol _ => "symbol"
  | .undef => "undefined"
  | .null => "object"
  | .arr _ => "object"
  | .obj _ => "object"

/-- JavaScript loose equality `data == null`: true exactly for null and
undefined. -/
def jsEqNull : JSValue → Bool
  | .null => true
  | .undef => true
  | _ => false

/-- JavaScript `Array.isArray(data)`. -/
def isArray : JSValue → Bool
  | .arr _ => true
  | _ => false

/-- Entries of an array as seen by `Object.entries`: decimal index keys in
order, starting from the given index. -/
def arrayEntries (i : Nat) : List JSValue → List (String × JSValue)
  | [] => []
  | v :: rest => (toString i, v) :: arrayEntries (i + 1) rest

/-- `Object.entries(o)` from src/src/util.ts applied to a runtime value:
own enumerable string-keyed entries in order.  For an array these are the
index/element pairs; primitives reached here have no own enumerable keys
that matter (the library guards on typeof first). -/
def objectEntries : JSValue → List (String × JSValue)
  | .obj fields => fields
  | .arr elements => arrayEntries 0 elements
  | _ => []

/-- `Object.keys(o)` of a runtime value. -/
def objectKeys (data : JSValue) : List String :=
  (objectEntries data).map Prod.fst

/-- `objectKeyExists(o, key)` from src/src/util.ts:
`Object.keys(o).indexOf(key) >= 0`. -/
def objectKeyExists (data : JSValue) (key : String) : Bool :=
  (objectKeys data).contains key

/-- `Report<T>` from src/src/core.ts: Ok carrying the accepted data, or Ng
with no payload. -/
inductive Report where
  | ok (data : JSValue)
  | ng

/-- `reportOk(data)` from src/src/std.ts. -/
def reportOk (data : JSValue) : Report := .ok data

/-- `reportNg()` from src/src/std.ts. -/
def reportNg : Report := .ng

/-- `isReportOk(report)` from src/src/std.ts. -/
def isReportOk : Report → Bool
  | .ok _ => true
  | .ng => false

/-- `isReportNg(report)` from src/src/std.ts. -/
def isReportNg : Report → Bool
  | .ok _ => false
  | .ng => true

/-- `Rule<T>` from src/src/core.ts: exactly one operation, validate. -/
structure Rule where
  validate : JSValue → Report

/-- `newRule(validate)` from src/src/std.ts. -/
def newRule (validate : JSValue → Report) : Rule := ⟨validate⟩

/-- `rule_String`. -/
def rule_String : Rule := newRule fun data =>
  if typeof data == "string" then reportOk data else reportNg

/-- `rule_Number`. -/
def rule_Number : Rule := newRule fun data =>
  if typeof data == "number" then reportOk data else reportNg

/-- `rule_Boolean`. -/
def rule_Boolean : Rule := newRule fun data =>
  if typeof data == "boolean" then reportOk data else reportNg

/-- `rule_Bigint`. -/
def rule_Bigint : Rule := newRule fun data =>
  if typeof data == "bigint" then reportOk data else reportNg

/-- `rule_Symbol`. -/
def rule_Symbol : Rule := newRule fun data =>
  if typeof data == "symbol" then reportOk data else reportNg

/-- `rule_Undefined`. -/
def rule_Undefined : Rule := newRule fun data =>
  if typeof data == "undefined" then reportOk data else reportNg

/-- `rule_Null`: loose equality `data == null`. -/
def rule_Null : Rule := newRule fun data =>
  if jsEqNull data then reportOk data else reportNg

/-- The element loop of `newRule_Array`: validate each element in order,
short-circuiting to failure at the first Ng element. -/
def arrayElemsOk (elementRule : Rule) : List JSValue → Bool
  | [] => true
  | elementData :: rest =>
      if isReportNg (elementRule.validate elementData) then false
      else arrayElemsOk elementRule rest

/-- `newRule_Array(elementRule)` from src/src/std.ts. -/
def newRule_Array (elementRule : Rule) : Rule := newRule fun data =>
  match data with
  | .arr elements =>
      if arrayElemsOk elementRule elements then reportOk data else reportNg
  | _ => reportNg

/-- The entry loop of `newRule_Dictionary`: validate each entry value in
order against the element rule, short-circuiting at the first Ng. -/
def dictElemsOk (elementRule : Rule) : List (String × JSValue) → Bool
  | [] => true
  | (_, elementData) :: rest =>
      if isReportNg (elementRule.validate elementData) then false
      else dictElemsOk elementRule rest

/-- `newRule_Dictionary(elementRule)` from src/src/std.ts: reject unless
typeof data is object and data is not loosely null, then the entry loop. -/
def newRule_Dictionary (elementRule : Rule) : Rule := newRule fun data =>
  if typeof data == "object" && !jsEqNull data then
    if dictElemsOk elementRule (objectEntries data) then reportOk data else reportNg
  else reportNg

/-- The position loop of `newRule_Tuple`: validate position i against
rule i, short-circuiting at the first Ng (lengths are equal when called). -/
def tupleElemsOk : List Rule → List JSValue → Bool
  | elementRule :: restRules, elementData :: restData =>
      if isReportNg (elementRule.validate elementData) then false
      else tupleElemsOk restRules restData
  | _, _ => true

/-- `newRule_Tuple(...elementRules)` from src/src/std.ts. -/
def newRule_Tuple (elementRules : List Rule) : Rule := newRule fun data =>
  match data with
  | .arr elements =>
      if elements.length != elementRules.length then reportNg
      else if tupleElemsOk elementRules elements then reportOk data else reportNg
  | _ => reportNg

/-- A rule map (TS object literal mapping field names to rules) as an
association list in declaration order; `ruleMap[key]` is first-match
lookup, defined exactly when `objectKeyExists(ruleMap, key)`. -/
def ruleMapGet : List (String × Rule) → String → Option Rule
  | [], _ => none
  | (k, r) :: rest, key => if k == key then some r else ruleMapGet rest key

/-- Pass 1 of `newRule_ObjLit`: every entry of the data must name a key of
the rule map and its value must pass that field rule; short-circuits at the
first violation. -/
def objLitPropsOk (ruleMap : List (String × Rule)) : List (String × JSValue) → Bool
  | [] => true
  | (key, propertyData) :: rest =>
      match ruleMapGet ruleMap key with
      | none => false
      | some fieldRule =>
          if isReportNg (fieldRule.validate propertyData) then false
          else objLitPropsOk ruleMap rest

/-- Pass 2 of `newRule_ObjLit` with optionalKeys omitted: every declared
key must be present in the data. -/
def objLitRequiredOk (data : JSValue) : List (String × Rule) → Bool
  | [] => true
  | (key, _) :: rest =>
      if !objectKeyExists data key then false
      else objLitRequiredOk data rest

/-- Pass 2 of `newRule_ObjLit` with optionalKeys supplied: a declared key
in the optional list is skipped, any other declared key must be present. -/
def objLitRequiredOkOpt (optionalKeys : List String) (data : JSValue) :
    List (String × Rule) → Bool
  | [] => true
  | (key, _) :: rest =>
      if optionalKeys.contains key then objLitRequiredOkOpt optionalKeys data rest
      else if !objectKeyExists data key then false
      else objLitRequiredOkOpt optionalKeys data rest

/-- `newRule_ObjLit(ruleMap, optionalKeys?)` from src/src/std.ts.  The
`if (optionalKeys)` test in the source distinguishes a supplied array
(truthy in JS, empty or not) from the omitted argument, modelled as
`Option`. -/
def newRule_ObjLit (ruleMap : List (String × Rule))
    (optionalKeys : Option (List String)) : Rule := newRule fun data =>
  if typeof data == "object" && !jsEqNull data then
    if objLitPropsOk ruleMap (objectEntries data) then
      match optionalKeys with
      | some keys =>
          if objLitRequiredOkOpt keys data ruleMap then reportOk data else reportNg
      | none =>
          if objLitRequiredOk data ruleMap then reportOk data else reportNg
    else reportNg
  else reportNg

/-- The branch loop of `newRule_Union`: try each case rule in order,
stopping at the first Ok. -/
def unionCasesOk (data : JSValue) : List Rule → Bool
  | [] => false
  | caseRule :: rest =>
      if isReportOk (caseRule.validate data) then true else unionCasesOk data rest

/-- `newRule_Union(...caseRules)` from src/src/std.ts: Ok wraps the
original input. -/
def newRule_Union (caseRules : List Rule) : Rule := newRule fun data =>
  if unionCasesOk data caseRules then reportOk data else reportNg

/-- The mutable state of `newRule_LazyEval(callback)`: the cache cell
(`let cache: Rule | null = null`), instrumented with the total number of
times the callback has been invoked so far. -/
structure LazyCell where
  cache : Option Rule
  calls : Nat

/-- The cell as created by `newRule_LazyEval`: empty cache, callback never
invoked. -/
def lazyCellInit : LazyCell := ⟨none, 0⟩

/-- One validate call of the lazy rule, state threaded explicitly: if the
cache is empty, invoke the callback, store the result and delegate to it;
otherwise delegate to the cached rule. -/
def lazyEvalValidate (callback : Unit → Rule) (cell : LazyCell) (data : JSValue) :
    Report × LazyCell :=
  match cell.cache with
  | none =>
      let cached := callback ()
      (cached.validate data, ⟨some cached, cell.calls + 1⟩)
  | some cached => (cached.validate data, cell)

/-- A sequence of validate calls on the same lazy rule, returning the final
cell state. -/
def lazyEvalRun (callback : Unit → Rule) (cell : LazyCell) : List JSValue → LazyCell
  | [] => cell
  | data :: rest => lazyEvalRun callback (lazyEvalValidate callback cell data).2 rest

/-!
Size measure on runtime values (arrays and objects strictly dominate their
entries), used to justify termination of the recursive-shape validator
below.
-/

mutual

def jsSize : JSValue → Nat
  | .arr elements => 2 + jsListSize elements
  | .obj fields => 2 + jsFieldsSize fields
  | _ => 1

def jsListSize : List JSValue → Nat
  | [] => 0
  | v :: rest => 1 + jsSize v + jsListSize rest

def jsFieldsSize : List (String × JSValue) → Nat
  | [] => 0
  | (_, v) :: rest => 1 + jsSize v + jsFieldsSize rest

end

theorem jsSize_pos (v : JSValue) : 1 ≤ jsSize v := by
  cases v <;> simp [jsSize] <;> omega

theorem jsFieldsSize_arrayEntries (i : Nat) (xs : List JSValue) :
    jsFieldsSize (arrayEntries i xs) = jsListSize xs := by
  induction xs generalizing i with
  | nil => simp [arrayEntries, jsFieldsSize, jsListSize]
  | cons v rest ih => simp [arrayEntries, jsFieldsSize, jsListSize, ih]

theorem objectEntries_size_lt (d : JSValue)
    (h : (typeof d == "object" && !jsEqNull d) = true) :
    jsFieldsSize (objectEntries d) + 1 < jsSize d := by
  cases d <;> simp [typeof, jsEqNull] at h <;>
    simp [objectEntries, jsSize, jsFieldsSize_arrayEntries] <;> omega

/-- The cell state of the concrete recursive lazy rule below: whether the
cache has been populated, and how many times the factory callback has run
in total. -/
structure SelfCell where
  populated : Bool
  calls : Nat
deriving DecidableEq, Repr

/-!
Instrumented model of the canonical recursive-shape usage of the lazy rule:

  const rule_Self = newRule_LazyEval of a thunk returning
      newRule_ObjLit of the rule map with the single field nest
      mapped to rule_Self, with nest in optionalKeys

validating the recursive shape whose optional field nest is itself.  The
inner rule delegates back to
`rule_Self` for the `nest` field, so validation re-enters the lazy rule at
every nesting level; the cache cell is threaded through explicitly and
counts callback invocations.  Faithful to the source order: the cache is
populated before the cached rule is invoked.
-/

mutual

/-- Validate of the lazy rule itself: populate the cache (counting one
callback invocation) if empty, then delegate to the inner object rule. -/
def ruleSelf_lazyValidate (data : JSValue) (cell : SelfCell) : Report × SelfCell :=
  if cell.populated then ruleSelf_objLitValidate data cell
  else ruleSelf_objLitValidate data ⟨true, cell.calls + 1⟩
termination_by jsSize data + 1
decreasing_by
  all_goals simp_wf
  all_goals omega

/-- Validate of the inner object rule (single field nest mapped to the
lazy rule, nest optional): the standard object guard, then the property
loop. -/
def ruleSelf_objLitValidate (data : JSValue) (cell : SelfCell) : Report × SelfCell :=
  if h : (typeof data == "object" && !jsEqNull data) = true then
    ruleSelf_propsLoop (objectEntries data) data cell
  else (reportNg, cell)
termination_by jsSize data
decreasing_by
  simp_wf
  exact objectEntries_size_lt data h

/-- Property loop of the inner object rule: the only declared key is
`nest`, validated by re-entering the lazy rule; any other key is unknown
and rejects.  The presence pass is trivial since `nest` is optional, so an
exhausted entry list reports Ok with the original data. -/
def ruleSelf_propsLoop (entries : List (String × JSValue)) (data : JSValue)
    (cell : SelfCell) : Report × SelfCell :=
  match entries with
  | [] => (reportOk data, cell)
  | (key, propertyData) :: rest =>
      if key == "nest" then
        match ruleSelf_lazyValidate propertyData cell with
        | (.ok _, cellAfter) => ruleSelf_propsLoop rest data cellAfter
        | (.ng, cellAfter) => (reportNg, cellAfter)
      else (reportNg, cell)
termination_by jsFieldsSize entries + 1
decreasing_by
  all_goals simp_wf
  all_goals simp only [jsFieldsSize]
  all_goals omega

end

/-!
Characterizations of the validation loops.
-/

theorem isReportNg_false_iff (r : Report) : isReportNg r = false ↔ ∃ w, r = .ok w := by
  cases r <;> simp [isReportNg]

theorem isReportOk_true_iff (r : Report) : isReportOk r = true ↔ ∃ w, r = .ok w := by
  cases r <;> simp [isReportOk]

theorem arrayElemsOk_iff (R : Rule) (xs : List JSValue) :
    arrayElemsOk R xs = true ↔ ∀ x ∈ xs, ∃ w, R.validate x = .ok w := by
  induction xs with
  | nil => simp [arrayElemsOk]
  | cons x rest ih =>
      cases hx : R.validate x <;> simp [arrayElemsOk, hx, isReportNg, ih]

theorem dictElemsOk_iff (R : Rule) (l : List (String × JSValue)) :
    dictElemsOk R l = true ↔ ∀ e ∈ l, ∃ w, R.validate e.2 = .ok w := by
  induction l with
  | nil => simp [dictElemsOk]
  | cons e rest ih =>
      obtain ⟨k, v⟩ := e
      cases hv : R.validate v <;> simp [dictElemsOk, hv, isReportNg, ih]

theorem tupleElemsOk_iff (rs : List Rule) (xs : List JSValue) :
    tupleElemsOk rs xs = true ↔ ∀ p ∈ rs.zip xs, ∃ w, p.1.validate p.2 = .ok w := by
  induction rs generalizing xs with
  | nil => cases xs <;> simp [tupleElemsOk]
  | cons r rest ih =>
      cases xs with
      | nil => simp [tupleElemsOk]
      | cons x xrest =>
          cases hx : r.validate x <;> simp [tupleElemsOk, hx, isReportNg, ih]

theorem objLitPropsOk_iff (rm : List (String × Rule)) (l : List (String × JSValue)) :
    objLitPropsOk rm l = true ↔
      ∀ e ∈ l, ∃ r, ruleMapGet rm e.1 = some r ∧ ∃ w, r.validate e.2 = .ok w := by
  induction l with
  | nil => simp [objLitPropsOk]
  | cons e rest ih =>
      obtain ⟨k, v⟩ := e
      cases hk : ruleMapGet rm k with
      | none => simp [objLitPropsOk, hk]
      | some r =>
          cases hv : r.validate v <;> simp [objLitPropsOk, hk, hv, isReportNg, ih]

theorem objLitRequiredOk_iff (d : JSValue) (rm : List (String × Rule)) :
    objLitRequiredOk d rm = true ↔ ∀ f ∈ rm, objectKeyExists d f.1 = true := by
  induction rm with
  | nil => simp [objLitRequiredOk]
  | cons f rest ih =>
      obtain ⟨k, r⟩ := f
      cases hk : objectKeyExists d k with
      | false => simp [objLitRequiredOk, hk]
      | true => simp [objLitRequiredOk, hk, ih]

theorem objLitRequiredOkOpt_iff (opts : List String) (d : JSValue)
    (rm : List (String × Rule)) :
    objLitRequiredOkOpt opts d rm = true ↔
      ∀ f ∈ rm, f.1 ∉ opts → objectKeyExists d f.1 = true := by
  induction rm with
  | nil => simp [objLitRequiredOkOpt]
  | cons f rest ih =>
      obtain ⟨k, r⟩ := f
      by_cases hmem : k ∈ opts
      · have hc : opts.contains k = true := by
          simpa [List.elem_iff] using hmem
        simp [objLitRequiredOkOpt, hc, ih, hmem]
      · have hc : opts.contains k = false := by
          simpa [List.elem_iff] using hmem
        cases hk : objectKeyExists d k with
        | false => simp [objLitRequiredOkOpt, hc, hk, hmem]
        | true => simp [objLitRequiredOkOpt, hc, hk, ih, hmem]

theorem unionCasesOk_iff (d : JSValue) (rs : List Rule) :
    unionCasesOk d rs = true ↔ ∃ r ∈ rs, ∃ w, r.validate d = .ok w := by
  induction rs with
  | nil => simp [unionCasesOk]
  | cons r rest ih =>
      cases hr : r.validate d <;> simp [unionCasesOk, hr, isReportOk, ih]

theorem ruleMapGet_eq_none_iff (rm : List (String × Rule)) (k : String) :
    ruleMapGet rm k = none ↔ k ∉ rm.map Prod.fst := by
  induction rm with
  | nil => simp [ruleMapGet]
  | cons f rest ih =>
      obtain ⟨k0, r⟩ := f
      by_cases h : k0 = k
      · simp [ruleMapGet, h]
      · simp [ruleMapGet, h, ih, Ne.symm h]

/-!
Behaviour of the lazy-rule cache cell.
-/

theorem lazyEvalValidate_cached (callback : Unit → Rule) (r : Rule) (c : Nat)
    (d : JSValue) :
    lazyEvalValidate callback ⟨some r, c⟩ d = (r.validate d, ⟨some r, c⟩) := rfl

theorem lazyEvalRun_cached (callback : Unit → Rule) (r : Rule) (c : Nat)
    (inputs : List JSValue) :
    lazyEvalRun callback ⟨some r, c⟩ inputs = ⟨some r, c⟩ := by
  induction inputs with
  | nil => rfl
  | cons d rest ih =>
      simp only [lazyEvalRun, lazyEvalValidate_cached]
      exact ih

theorem lazyEvalRun_init (callback : Unit → Rule) (inputs : List JSValue)
    (h : inputs ≠ []) :
    lazyEvalRun callback lazyCellInit inputs = ⟨some (callback ()), 1⟩ := by
  cases inputs with
  | nil => cases h rfl
  | cons d rest =>
      simp only [lazyEvalRun, lazyEvalValidate, lazyCellInit]
      exact lazyEvalRun_cached callback (callback ()) 1 rest

/-!
Unfolding lemmas and state invariance for the recursive-shape scenario.
-/

theorem ruleSelf_lazyValidate_eq (d : JSValue) (cell : SelfCell) :
    ruleSelf_lazyValidate d cell =
      if cell.populated then ruleSelf_objLitValidate d cell
      else ruleSelf_objLitValidate d ⟨true, cell.calls + 1⟩ := by
  rw [ruleSelf_lazyValidate]

theorem ruleSelf_objLit_guard_true (d : JSValue) (cell : SelfCell)
    (h : (typeof d == "object" && !jsEqNull d) = true) :
    ruleSelf_objLitValidate d cell = ruleSelf_propsLoop (objectEntries d) d cell := by
  rw [ruleSelf_objLitValidate]
  simp [h]

theorem ruleSelf_objLit_guard_false (d : JSValue) (cell : SelfCell)
    (h : ¬ (typeof d == "object" && !jsEqNull d) = true) :
    ruleSelf_objLitValidate d cell = (reportNg, cell) := by
  rw [ruleSelf_objLitValidate]
  simp [h]

/-- Once the cache is populated, neither the inner object validate nor the
property loop changes the cell, and the report does not depend on the
callback counter: both equal the report computed with a zeroed counter. -/
theorem ruleSelf_populated_inv : ∀ n : Nat,
    (∀ d : JSValue, jsSize d ≤ n → ∀ c : Nat,
        ruleSelf_objLitValidate d ⟨true, c⟩ =
          ((ruleSelf_objLitValidate d ⟨true, 0⟩).1, ⟨true, c⟩)) ∧
    (∀ (l : List (String × JSValue)) (d : JSValue), jsFieldsSize l ≤ n → ∀ c : Nat,
        ruleSelf_propsLoop l d ⟨true, c⟩ =
          ((ruleSelf_propsLoop l d ⟨true, 0⟩).1, ⟨true, c⟩)) := by
  intro n
  induction n using Nat.strong_induction_on with
  | _ n ih =>
      constructor
      · intro d hd c
        by_cases hg : (typeof d == "object" && !jsEqNull d) = true
        · rw [ruleSelf_objLit_guard_true d _ hg, ruleSelf_objLit_guard_true d _ hg]
          have hlt := objectEntries_size_lt d hg
          have hm : jsFieldsSize (objectEntries d) < n := by omega
          exact (ih _ hm).2 (objectEntries d) d (le_refl _) c
        · rw [ruleSelf_objLit_guard_false d _ hg, ruleSelf_objLit_guard_false d _ hg]
      · intro l d hl c
        cases l with
        | nil => simp [ruleSelf_propsLoop]
        | cons e rest =>
            obtain ⟨k, v⟩ := e
            simp only [jsFieldsSize] at hl
            have hv : jsSize v < n := by omega
            have hrest : jsFieldsSize rest < n := by
              have := jsSize_pos v
              omega
            by_cases hk : (k == "nest") = true
            · have hlazy : ∀ c0 : Nat, ruleSelf_lazyValidate v ⟨true, c0⟩ =
                  ((ruleSelf_objLitValidate v ⟨true, 0⟩).1, ⟨true, c0⟩) := by
                intro c0
                rw [ruleSelf_lazyValidate_eq]
                exact (ih _ hv).1 v (le_refl _) c0
              simp only [ruleSelf_propsLoop, hk, if_true, hlazy]
              cases hrep : (ruleSelf_objLitValidate v ⟨true, 0⟩).1 with
              | ok w =>
                  simp only [hrep]
                  exact (ih _ hrest).2 rest d (le_refl _) c
              | ng => simp only [hrep]
            · simp [ruleSelf_propsLoop, hk]

/-- Full behaviour of one validate call on the recursive lazy rule: the
report is a function of the data alone, the cache ends populated, and the
callback counter rises by one exactly when the cache was empty. -/
theorem ruleSelf_lazy_state (d : JSValue) (cell : SelfCell) :
    ruleSelf_lazyValidate d cell =
      ((ruleSelf_objLitValidate d ⟨true, 0⟩).1,
        ⟨true, if cell.populated then cell.calls else cell.calls + 1⟩) := by
  obtain ⟨pop, c⟩ := cell
  cases pop
  · rw [ruleSelf_lazyValidate_eq]
    simpa using (ruleSelf_populated_inv (jsSize d)).1 d (le_refl _) (c + 1)
  · rw [ruleSelf_lazyValidate_eq]
    simpa using (ruleSelf_populated_inv (jsSize d)).1 d (le_refl _) c

/-!
On success every combinator reports the original input as its payload.
-/

theorem ifReport_ok_payload (c : Bool) (d w : JSValue)
    (h : (if c then reportOk d else reportNg) = .ok w) : w = d := by
  cases c <;> simp [reportOk, reportNg] at h
  exact h.symm

theorem ok_payload_Array (R : Rule) (v w : JSValue)
    (h : (newRule_Array R).validate v = .ok w) : w = v := by
  cases v <;> simp only [newRule_Array, newRule] at h <;>
    first
      | exact ifReport_ok_payload _ _ _ h
      | simp [reportNg] at h

theorem ok_payload_Dictionary (R : Rule) (v w : JSValue)
    (h : (newRule_Dictionary R).validate v = .ok w) : w = v := by
  simp only [newRule_Dictionary, newRule] at h
  by_cases hg : (typeof v == "object" && !jsEqNull v) = true
  · rw [if_pos hg] at h
    exact ifReport_ok_payload _ _ _ h
  · rw [if_neg hg] at h
    simp [reportNg] at h

theorem ok_payload_Tuple (rs : List Rule) (v w : JSValue)
    (h : (newRule_Tuple rs).validate v = .ok w) : w = v := by
  cases v <;> simp only [newRule_Tuple, newRule] at h
  case arr elements =>
    by_cases hl : (elements.length != rs.length) = true
    · rw [if_pos hl] at h
      simp [reportNg] at h
    · rw [if_neg hl] at h
      exact ifReport_ok_payload _ _ _ h
  all_goals simp [reportNg] at h

theorem ok_payload_ObjLit (rm : List (String × Rule)) (opts : Option (List String))
    (v w : JSValue) (h : (newRule_ObjLit rm opts).validate v = .ok w) : w = v := by
  simp only [newRule_ObjLit, newRule] at h
  by_cases hg : (typeof v == "object" && !jsEqNull v) = true
  · rw [if_pos hg] at h
    by_cases hp : objLitPropsOk rm (objectEntries v) = true
    · rw [if_pos hp] at h
      cases opts with
      | some keys => exact ifReport_ok_payload _ _ _ h
      | none => exact ifReport_ok_payload _ _ _ h
    · rw [if_neg hp] at h
      simp [reportNg] at h
  · rw [if_neg hg] at h
    simp [reportNg] at h

theorem ok_payload_Union (rs : List Rule) (v w : JSValue)
    (h : (newRule_Union rs).validate v = .ok w) : w = v := by
  simp only [newRule_Union, newRule] at h
  exact ifReport_ok_payload _ _ _ h

/-!
Claim theorems.
-/

/-- Claim C1: for a rule built by newRule_LazyEval(callback), the factory
callback runs at most once in total.  First conjunct: over any sequence of
validate calls starting from the fresh cell, the callback runs at most
once.  Second conjunct: a nonempty call sequence runs it exactly once and
leaves the produced rule in the cache.  Third conjunct: in the recursive
shape scenario (nest?: Self), one validate call at any nesting depth
populates the cache and increments the callback counter exactly once when
the cache was empty, and never re-invokes the callback when it was already
populated. -/
theorem claim_C1_lazy_factory_runs_at_most_once :
    (∀ (callback : Unit → Rule) (inputs : List JSValue),
        (lazyEvalRun callback lazyCellInit inputs).calls ≤ 1) ∧
    (∀ (callback : Unit → Rule) (inputs : List JSValue), inputs ≠ [] →
        lazyEvalRun callback lazyCellInit inputs = ⟨some (callback ()), 1⟩) ∧
    (∀ (data : JSValue) (cell : SelfCell),
        (ruleSelf_lazyValidate data cell).2 =
          ⟨true, if cell.populated then cell.calls else cell.calls + 1⟩) := by
  refine ⟨?_, ?_, ?_⟩
  · intro callback inputs
    cases inputs with
    | nil => simp [lazyEvalRun, lazyCellInit]
    | cons d rest =>
        rw [lazyEvalRun_init callback (d :: rest) (by simp)]
  · intro callback inputs h
    exact lazyEvalRun_init callback inputs h
  · intro data cell
    rw [ruleSelf_lazy_state]

/-- Witness for claim C1 at a concrete callback and a two-call sequence. -/
theorem claim_C1_witness :
    lazyEvalRun (fun _ => rule_String) lazyCellInit [JSValue.null, JSValue.str "a"] =
      ⟨some ((fun _ => rule_String) ()), 1⟩ :=
  claim_C1_lazy_factory_runs_at_most_once.2.1 (fun _ => rule_String)
    [JSValue.null, JSValue.str "a"] (by simp)

/-- Claim C8: validation is deterministic and, on success, reports the
original input.  The stateless combinators report the original input as
the Ok payload (first six conjuncts); for the stateful lazy rule with a
pure factory, a repeated validate call on the same input returns the same
report and leaves the cell unchanged, both for a plain cached inner rule
and in the recursive shape scenario (last two conjuncts). -/
theorem claim_C8_validate_deterministic :
    (∀ (R : Rule) (v w : JSValue), (newRule_Array R).validate v = .ok w → w = v) ∧
    (∀ (R : Rule) (v w : JSValue), (newRule_Dictionary R).validate v = .ok w → w = v) ∧
    (∀ (rs : List Rule) (v w : JSValue), (newRule_Tuple rs).validate v = .ok w → w = v) ∧
    (∀ (rm : List (String × Rule)) (opts : Option (List String)) (v w : JSValue),
        (newRule_ObjLit rm opts).validate v = .ok w → w = v) ∧
    (∀ (rs : List Rule) (v w : JSValue), (newRule_Union rs).validate v = .ok w → w = v) ∧
    (∀ (R : Rule) (v w : JSValue),
        R ∈ [rule_String, rule_Number, rule_Boolean, rule_Bigint, rule_Symbol,
              rule_Undefined, rule_Null] →
        R.validate v = .ok w → w = v) ∧
    (∀ (callback : Unit → Rule) (cell : LazyCell) (d : JSValue),
        lazyEvalValidate callback (lazyEvalValidate callback cell d).2 d =
          ((lazyEvalValidate callback cell d).1, (lazyEvalValidate callback cell d).2)) ∧
    (∀ (d : JSValue) (cell : SelfCell),
        ruleSelf_lazyValidate d (ruleSelf_lazyValidate d cell).2 =
          ((ruleSelf_lazyValidate d cell).1, (ruleSelf_lazyValidate d cell).2)) := by
  refine ⟨ok_payload_Array, ok_payload_Dictionary, ok_payload_Tuple,
    ok_payload_ObjLit, ok_payload_Union, ?_, ?_, ?_⟩
  · intro R v w hmem h
    simp only [List.mem_cons, List.mem_singleton] at hmem
    rcases hmem with rfl | rfl | rfl | rfl | rfl | rfl | rfl | hfalse
    all_goals first
      | exact ifReport_ok_payload _ _ _ h
      | simp at hfalse
  · intro callback cell d
    obtain ⟨cache, c⟩ := cell
    cases cache <;> rfl
  · intro d cell
    rw [ruleSelf_lazy_state d cell]
    rw [ruleSelf_lazy_state d _]
    simp

/-- Witness for claim C8: the string rule accepts a concrete string and
reports it back unchanged. -/
theorem claim_C8_witness :
    JSValue.str "a" = JSValue.str "a" :=
  claim_C8_validate_deterministic.2.2.2.2.2.1 rule_String (JSValue.str "a")
    (JSValue.str "a") (by simp) (by rfl)

/-- Claim C6: each primitive scalar rule accepts exactly the values of its
runtime kind (reporting the input back), and the null rule uses loose
equality, accepting both null and undefined and nothing else. -/
theorem claim_C6_primitive_rules :
    ∀ v : JSValue,
      (rule_String.validate v = .ok v ↔ typeof v = "string") ∧
      (rule_String.validate v = .ng ↔ typeof v ≠ "string") ∧
      (rule_Number.validate v = .ok v ↔ typeof v = "number") ∧
      (rule_Number.validate v = .ng ↔ typeof v ≠ "number") ∧
      (rule_Boolean.validate v = .ok v ↔ typeof v = "boolean") ∧
      (rule_Boolean.validate v = .ng ↔ typeof v ≠ "boolean") ∧
      (rule_Bigint.validate v = .ok v ↔ typeof v = "bigint") ∧
      (rule_Bigint.validate v = .ng ↔ typeof v ≠ "bigint") ∧
      (rule_Symbol.validate v = .ok v ↔ typeof v = "symbol") ∧
      (rule_Symbol.validate v = .ng ↔ typeof v ≠ "symbol") ∧
      (rule_Undefined.validate v = .ok v ↔ typeof v = "undefined") ∧
      (rule_Undefined.validate v = .ng ↔ typeof v ≠ "undefined") ∧
      (rule_Null.validate v = .ok v ↔ (v = .null ∨ v = .undef)) ∧
      (rule_Null.validate v = .ng ↔ ¬ (v = .null ∨ v = .undef)) := by
  intro v
  cases v <;>
    simp [rule_String, rule_Number, rule_Boolean, rule_Bigint, rule_Symbol,
      rule_Undefined, rule_Null, newRule, typeof, jsEqNull, reportOk, reportNg]

/-- Claim C10: supplying an empty optionalKeys list is extensionally
equivalent to omitting optionalKeys entirely: the two object rules return
the same report on every input. -/
theorem claim_C10_empty_optionalKeys_equiv :
    ∀ (ruleMap : List (String × Rule)) (data : JSValue),
      (newRule_ObjLit ruleMap (some [])).validate data =
        (newRule_ObjLit ruleMap none).validate data := by
  intro rm d
  have h : ∀ rm0 : List (String × Rule),
      objLitRequiredOkOpt [] d rm0 = objLitRequiredOk d rm0 := by
    intro rm0
    induction rm0 with
    | nil => rfl
    | cons f rest ih =>
        obtain ⟨k, r⟩ := f
        simp [objLitRequiredOkOpt, objLitRequiredOk, ih, List.contains]
  simp [newRule_ObjLit, newRule, h]

/-- Claim C4: the union tries its branch rules in declaration order and
accepts with the original input at the first accepting branch, whatever
the later branches are; it rejects when no branch accepts, and the empty
union rejects every input. -/
theorem claim_C4_union_first_match :
    (∀ d : JSValue, (newRule_Union []).validate d = .ng) ∧
    (∀ (pre : List Rule) (acc : Rule) (post : List Rule) (d : JSValue),
        (∀ r ∈ pre, r.validate d = .ng) →
        (∃ w, acc.validate d = .ok w) →
        (newRule_Union (pre ++ acc :: post)).validate d = .ok d) ∧
    (∀ (caseRules : List Rule) (d : JSValue),
        (∀ r ∈ caseRules, r.validate d = .ng) →
        (newRule_Union caseRules).validate d = .ng) := by
  refine ⟨?_, ?_, ?_⟩
  · intro d
    simp [newRule_Union, newRule, unionCasesOk, reportNg]
  · intro pre acc post d _hpre hacc
    have h : unionCasesOk d (pre ++ acc :: post) = true := by
      rw [unionCasesOk_iff]
      exact ⟨acc, by simp, hacc⟩
    simp [newRule_Union, newRule, h, reportOk]
  · intro caseRules d hall
    have h : ¬ unionCasesOk d caseRules = true := by
      rw [unionCasesOk_iff]
      rintro ⟨r, hr, w, hw⟩
      simp [hall r hr] at hw
    simp [newRule_Union, newRule, h, reportNg]

/-- Witness for claim C4: a union whose second branch accepts a concrete
string, with a rejecting branch before and another branch after. -/
theorem claim_C4_witness :
    (newRule_Union [rule_Number, rule_String, rule_Boolean]).validate
        (JSValue.str "a") = .ok (JSValue.str "a") :=
  claim_C4_union_first_match.2.1 [rule_Number] rule_String [rule_Boolean]
    (JSValue.str "a") (by intro r hr; simp at hr; subst hr; rfl) ⟨JSValue.str "a", rfl⟩

theorem mem_arrayEntries_snd {xs : List JSValue} {e : String × JSValue} :
    ∀ i : Nat, e ∈ arrayEntries i xs → e.2 ∈ xs := by
  induction xs with
  | nil =>
      intro i h
      simp [arrayEntries] at h
  | cons v rest ih =>
      intro i h
      simp only [arrayEntries, List.mem_cons] at h
      rcases h with rfl | h
      · simp
      · exact List.mem_cons_of_mem _ (ih _ h)

/-- Claim C7: the array rule rejects non-arrays, accepts an array (with the
original array as payload) exactly when every element passes the element
rule, accepts the empty array, and short-circuits at the first failing
element: the elements after it do not affect the (rejecting) outcome. -/
theorem claim_C7_array_rule :
    (∀ (R : Rule) (d : JSValue), isArray d = false →
        (newRule_Array R).validate d = .ng) ∧
    (∀ (R : Rule) (xs : List JSValue),
        (newRule_Array R).validate (.arr xs) = .ok (.arr xs) ↔
          ∀ x ∈ xs, ∃ w, R.validate x = .ok w) ∧
    (∀ R : Rule, (newRule_Array R).validate (.arr []) = .ok (.arr [])) ∧
    (∀ (R : Rule) (pre : List JSValue) (x : JSValue) (post post2 : List JSValue),
        (∀ y ∈ pre, ∃ w, R.validate y = .ok w) →
        R.validate x = .ng →
        (newRule_Array R).validate (.arr (pre ++ x :: post)) = .ng ∧
        (newRule_Array R).validate (.arr (pre ++ x :: post)) =
          (newRule_Array R).validate (.arr (pre ++ x :: post2))) := by
  refine ⟨?_, ?_, ?_, ?_⟩
  · intro R d hd
    cases d <;> simp [isArray] at hd <;> simp [newRule_Array, newRule, reportNg]
  · intro R xs
    constructor
    · intro h
      by_cases he : arrayElemsOk R xs = true
      · exact (arrayElemsOk_iff R xs).mp he
      · simp [newRule_Array, newRule, he, reportNg] at h
    · intro hall
      have he : arrayElemsOk R xs = true := (arrayElemsOk_iff R xs).mpr hall
      simp [newRule_Array, newRule, he, reportOk]
  · intro R
    simp [newRule_Array, newRule, arrayElemsOk, reportOk]
  · intro R pre x post post2 _hpre hx
    have hko : ∀ post' : List JSValue, arrayElemsOk R (pre ++ x :: post') = false := by
      intro post'
      cases h0 : arrayElemsOk R (pre ++ x :: post') with
      | false => rfl
      | true =>
          obtain ⟨w, hw⟩ := (arrayElemsOk_iff _ _).mp h0 x (by simp)
          rw [hx] at hw
          cases hw
    constructor
    · simp [newRule_Array, newRule, hko, reportNg]
    · simp [newRule_Array, newRule, hko]

/-- Witness for claim C7 at a concrete element rule and array: a failing
middle element rejects, and replacing the elements after it changes
nothing. -/
theorem claim_C7_witness :
    (newRule_Array rule_Number).validate
        (.arr ([JSValue.num 1] ++ JSValue.str "x" :: [JSValue.num 3])) = .ng ∧
    (newRule_Array rule_Number).validate
        (.arr ([JSValue.num 1] ++ JSValue.str "x" :: [JSValue.num 3])) =
      (newRule_Array rule_Number).validate
        (.arr ([JSValue.num 1] ++ JSValue.str "x" :: [JSValue.null])) :=
  claim_C7_array_rule.2.2.2 rule_Number [JSValue.num 1] (JSValue.str "x")
    [JSValue.num 3] [JSValue.null]
    (by intro y hy; simp at hy; subst hy; exact ⟨JSValue.num 1, rfl⟩) rfl

/-- Claim C9: the container guard of the dictionary and object rules only
demands typeof object and not loosely null, so arrays pass it: the
dictionary rule accepts the empty array and any array whose elements all
pass the element rule, and the object rule does not reject an array at the
guard (an empty array passes an object rule all of whose declared keys are
optional). -/
theorem claim_C9_arrays_pass_container_guard :
    (∀ R : Rule, (newRule_Dictionary R).validate (.arr []) = .ok (.arr [])) ∧
    (∀ (R : Rule) (xs : List JSValue),
        (∀ x ∈ xs, ∃ w, R.validate x = .ok w) →
        (newRule_Dictionary R).validate (.arr xs) = .ok (.arr xs)) ∧
    (∀ ruleMap : List (String × Rule),
        (newRule_ObjLit ruleMap (some (ruleMap.map Prod.fst))).validate (.arr []) =
          .ok (.arr [])) := by
  refine ⟨?_, ?_, ?_⟩
  · intro R
    simp [newRule_Dictionary, newRule, typeof, jsEqNull, objectEntries,
      arrayEntries, dictElemsOk, reportOk]
  · intro R xs hall
    have h : dictElemsOk R (objectEntries (.arr xs)) = true := by
      rw [dictElemsOk_iff]
      intro e he
      simp only [objectEntries] at he
      exact hall e.2 (mem_arrayEntries_snd 0 he)
    simp [newRule_Dictionary, newRule, typeof, jsEqNull, h, reportOk]
  · intro ruleMap
    have hp : objLitPropsOk ruleMap (objectEntries (.arr [])) = true := by
      simp [objectEntries, arrayEntries, objLitPropsOk]
    have hr : objLitRequiredOkOpt (ruleMap.map Prod.fst) (.arr []) ruleMap = true := by
      rw [objLitRequiredOkOpt_iff]
      intro f hf hnot
      exact absurd (List.mem_map_of_mem Prod.fst hf) hnot
    simp [newRule_ObjLit, newRule, typeof, jsEqNull, hp, hr, reportOk]

/-- Claim C5: the tuple rule rejects non-arrays and arrays whose length
differs from the number of rules; at the exact length it accepts (with the
original array as payload) precisely when every position passes its rule,
and it short-circuits at the first failing position: the elements after it
do not affect the rejecting outcome. -/
theorem claim_C5_tuple_rule :
    (∀ (elementRules : List Rule) (d : JSValue), isArray d = false →
        (newRule_Tuple elementRules).validate d = .ng) ∧
    (∀ (elementRules : List Rule) (xs : List JSValue),
        xs.length ≠ elementRules.length →
        (newRule_Tuple elementRules).validate (.arr xs) = .ng) ∧
    (∀ (elementRules : List Rule) (xs : List JSValue),
        xs.length = elementRules.length →
        ((newRule_Tuple elementRules).validate (.arr xs) = .ok (.arr xs) ↔
            ∀ p ∈ elementRules.zip xs, ∃ w, p.1.validate p.2 = .ok w) ∧
        ((newRule_Tuple elementRules).validate (.arr xs) = .ng ↔
            ¬ ∀ p ∈ elementRules.zip xs, ∃ w, p.1.validate p.2 = .ok w)) ∧
    (∀ (preR : List Rule) (r : Rule) (postR : List Rule)
        (preD : List JSValue) (x : JSValue) (postD : List JSValue),
        preR.length = preD.length → postR.length = postD.length →
        r.validate x = .ng →
        (newRule_Tuple (preR ++ r :: postR)).validate
            (.arr (preD ++ x :: postD)) = .ng) := by
  refine ⟨?_, ?_, ?_, ?_⟩
  · intro elementRules d hd
    cases d <;> simp [isArray] at hd <;> simp [newRule_Tuple, newRule, reportNg]
  · intro elementRules xs hlen
    have h : (xs.length != elementRules.length) = true := by simpa using hlen
    simp [newRule_Tuple, newRule, h, reportNg, hlen]
  · intro elementRules xs hlen
    have h : (xs.length != elementRules.length) = false := by simpa using hlen
    constructor
    · constructor
      · intro hok
        by_cases he : tupleElemsOk elementRules xs = true
        · exact (tupleElemsOk_iff _ _).mp he
        · simp [newRule_Tuple, newRule, h, he, reportNg, hlen] at hok
      · intro hall
        have he : tupleElemsOk elementRules xs = true := (tupleElemsOk_iff _ _).mpr hall
        simp [newRule_Tuple, newRule, h, he, reportOk, hlen]
    · constructor
      · intro hng hall
        have he : tupleElemsOk elementRules xs = true := (tupleElemsOk_iff _ _).mpr hall
        simp [newRule_Tuple, newRule, h, he, reportOk, hlen] at hng
      · intro hall
        have he : ¬ tupleElemsOk elementRules xs = true := by
          rw [tupleElemsOk_iff]
          exact hall
        simp [newRule_Tuple, newRule, h, he, reportNg, hlen]
  · intro preR r postR preD x postD hpre hpost hx
    have hlen : ((preD ++ x :: postD).length != (preR ++ r :: postR).length) = false := by
      simp [hpre, hpost]
    have hleneq : (preD ++ x :: postD).length = (preR ++ r :: postR).length := by
      simp [hpre, hpost]
    have he : tupleElemsOk (preR ++ r :: postR) (preD ++ x :: postD) = false := by
      cases h0 : tupleElemsOk (preR ++ r :: postR) (preD ++ x :: postD) with
      | false => rfl
      | true =>
          have hmem : (r, x) ∈ (preR ++ r :: postR).zip (preD ++ x :: postD) := by
            rw [List.zip_append hpre]
            exact List.mem_append_right _ (List.mem_cons_self _ _)
          obtain ⟨w, hw⟩ := (tupleElemsOk_iff _ _).mp h0 (r, x) hmem
          rw [hx] at hw
          cases hw
    simp [newRule_Tuple, newRule, hlen, he, reportNg, hleneq]

/-- Witness for claim C5: a two-rule tuple rejects a three-element array
whose middle element fails, independent of the trailing element. -/
theorem claim_C5_witness :
    (newRule_Tuple ([rule_String] ++ rule_Number :: [rule_Boolean])).validate
        (.arr ([JSValue.str "a"] ++ JSValue.str "b" :: [JSValue.bool true])) = .ng :=
  claim_C5_tuple_rule.2.2.2 [rule_String] rule_Number [rule_Boolean]
    [JSValue.str "a"] (JSValue.str "b") [JSValue.bool true] rfl rfl rfl

/-- Witness for claim C9: the number dictionary accepts a concrete
two-element number array. -/
theorem claim_C9_witness :
    (newRule_Dictionary rule_Number).validate (.arr [JSValue.num 1, JSValue.num 2]) =
      .ok (.arr [JSValue.num 1, JSValue.num 2]) :=
  claim_C9_arrays_pass_container_guard.2.1 rule_Number [JSValue.num 1, JSValue.num 2]
    (by
      intro x hx
      simp at hx
      rcases hx with rfl | rfl
      · exact ⟨JSValue.num 1, rfl⟩
      · exact ⟨JSValue.num 2, rfl⟩)

/-- Validate of the object rule once the container guard has passed. -/
theorem objLit_validate_eq (rm : List (String × Rule)) (opts : Option (List String))
    (d : JSValue) (h : (typeof d == "object" && !jsEqNull d) = true) :
    (newRule_ObjLit rm opts).validate d =
      if objLitPropsOk rm (objectEntries d) then
        (match opts with
          | some keys => if objLitRequiredOkOpt keys d rm then reportOk d else reportNg
          | none => if objLitRequiredOk d rm then reportOk d else reportNg)
      else reportNg := by
  simp only [newRule_ObjLit, newRule]
  rw [if_pos h]

/-- Claim C2: with optionalKeys omitted and a non-null object input, the
object rule rejects when some input entry names an undeclared key, rejects
when some present entry fails its field rule, rejects when some declared
key is absent from the input, and otherwise accepts carrying the original
input. -/
theorem claim_C2_objLit_closed_shape :
    ∀ (ruleMap : List (String × Rule)) (data : JSValue),
      (typeof data == "object" && !jsEqNull data) = true →
      ((∃ e ∈ objectEntries data, e.1 ∉ ruleMap.map Prod.fst) →
          (newRule_ObjLit ruleMap none).validate data = .ng) ∧
      ((∃ e ∈ objectEntries data, ∃ r, ruleMapGet ruleMap e.1 = some r ∧
            r.validate e.2 = .ng) →
          (newRule_ObjLit ruleMap none).validate data = .ng) ∧
      ((∃ f ∈ ruleMap, f.1 ∉ objectKeys data) →
          (newRule_ObjLit ruleMap none).validate data = .ng) ∧
      ((∀ e ∈ objectEntries data, ∃ r, ruleMapGet ruleMap e.1 = some r ∧
            ∃ w, r.validate e.2 = .ok w) →
        (∀ f ∈ ruleMap, f.1 ∈ objectKeys data) →
          (newRule_ObjLit ruleMap none).validate data = .ok data) := by
  intro ruleMap data hguard
  refine ⟨?_, ?_, ?_, ?_⟩
  · rintro ⟨e, he, hnk⟩
    have hget : ruleMapGet ruleMap e.1 = none := (ruleMapGet_eq_none_iff _ _).mpr hnk
    have hp : objLitPropsOk ruleMap (objectEntries data) = false := by
      cases h0 : objLitPropsOk ruleMap (objectEntries data) with
      | false => rfl
      | true =>
          obtain ⟨r, hr, _⟩ := (objLitPropsOk_iff _ _).mp h0 e he
          rw [hget] at hr
          cases hr
    rw [objLit_validate_eq _ _ _ hguard]
    simp [hp, reportNg]
  · rintro ⟨e, he, r, hr, hng⟩
    have hp : objLitPropsOk ruleMap (objectEntries data) = false := by
      cases h0 : objLitPropsOk ruleMap (objectEntries data) with
      | false => rfl
      | true =>
          obtain ⟨r2, hr2, w, hw⟩ := (objLitPropsOk_iff _ _).mp h0 e he
          rw [hr] at hr2
          obtain rfl : r = r2 := Option.some.inj hr2
          rw [hng] at hw
          cases hw
    rw [objLit_validate_eq _ _ _ hguard]
    simp [hp, reportNg]
  · rintro ⟨f, hf, hnk⟩
    have hreq : objLitRequiredOk data ruleMap = false := by
      cases h0 : objLitRequiredOk data ruleMap with
      | false => rfl
      | true =>
          have hex := (objLitRequiredOk_iff _ _).mp h0 f hf
          have : f.1 ∈ objectKeys data := by
            simpa [objectKeyExists, List.elem_iff] using hex
          exact absurd this hnk
    rw [objLit_validate_eq _ _ _ hguard]
    by_cases hp : objLitPropsOk ruleMap (objectEntries data) = true
    · simp [hp, hreq, reportNg]
    · simp [hp, reportNg]
  · intro hprops hkeys
    have hp : objLitPropsOk ruleMap (objectEntries data) = true :=
      (objLitPropsOk_iff _ _).mpr hprops
    have hreq : objLitRequiredOk data ruleMap = true := by
      rw [objLitRequiredOk_iff]
      intro f hf
      simpa [objectKeyExists, List.elem_iff] using hkeys f hf
    rw [objLit_validate_eq _ _ _ hguard]
    simp [hp, hreq, reportOk]

/-- Witness for claim C2: the one-field object rule accepts a conforming
concrete object. -/
theorem claim_C2_witness :
    (newRule_ObjLit [("a", rule_String)] none).validate
        (.obj [("a", JSValue.str "x")]) = .ok (.obj [("a", JSValue.str "x")]) :=
  (claim_C2_objLit_closed_shape [("a", rule_String)] (.obj [("a", JSValue.str "x")])
      rfl).2.2.2
    (by
      intro e he
      simp [objectEntries] at he
      subst he
      exact ⟨rule_String, rfl, JSValue.str "x", rfl⟩)
    (by
      intro f hf
      simp at hf
      subst hf
      simp [objectKeys, objectEntries])

/-- Claim C3: with optionalKeys supplied, a declared key outside the
optional set must be present or the rule rejects; if every present entry
passes its field rule and every non-optional declared key is present, the
rule accepts (so the absence of optional keys alone never rejects); and a
present optional key must still pass its field rule or the rule rejects. -/
theorem claim_C3_objLit_optionalKeys :
    ∀ (ruleMap : List (String × Rule)) (optionalKeys : List String) (data : JSValue),
      (typeof data == "object" && !jsEqNull data) = true →
      ((∃ f ∈ ruleMap, f.1 ∉ optionalKeys ∧ f.1 ∉ objectKeys data) →
          (newRule_ObjLit ruleMap (some optionalKeys)).validate data = .ng) ∧
      ((∀ e ∈ objectEntries data, ∃ r, ruleMapGet ruleMap e.1 = some r ∧
            ∃ w, r.validate e.2 = .ok w) →
        (∀ f ∈ ruleMap, f.1 ∉ optionalKeys → f.1 ∈ objectKeys data) →
          (newRule_ObjLit ruleMap (some optionalKeys)).validate data = .ok data) ∧
      ((∃ e ∈ objectEntries data, e.1 ∈ optionalKeys ∧ ∃ r,
            ruleMapGet ruleMap e.1 = some r ∧ r.validate e.2 = .ng) →
          (newRule_ObjLit ruleMap (some optionalKeys)).validate data = .ng) := by
  intro ruleMap optionalKeys data hguard
  refine ⟨?_, ?_, ?_⟩
  · rintro ⟨f, hf, hopt, hnk⟩
    have hreq : objLitRequiredOkOpt optionalKeys data ruleMap = false := by
      cases h0 : objLitRequiredOkOpt optionalKeys data ruleMap with
      | false => rfl
      | true =>
          have hex := (objLitRequiredOkOpt_iff _ _ _).mp h0 f hf hopt
          have : f.1 ∈ objectKeys data := by
            simpa [objectKeyExists, List.elem_iff] using hex
          exact absurd this hnk
    rw [objLit_validate_eq _ _ _ hguard]
    by_cases hp : objLitPropsOk ruleMap (objectEntries data) = true
    · simp [hp, hreq, reportNg]
    · simp [hp, reportNg]
  · intro hprops hkeys
    have hp : objLitPropsOk ruleMap (objectEntries data) = true :=
      (objLitPropsOk_iff _ _).mpr hprops
    have hreq : objLitRequiredOkOpt optionalKeys data ruleMap = true := by
      rw [objLitRequiredOkOpt_iff]
      intro f hf hopt
      simpa [objectKeyExists, List.elem_iff] using hkeys f hf hopt
    rw [objLit_validate_eq _ _ _ hguard]
    simp [hp, hreq, reportOk]
  · rintro ⟨e, he, _hopt, r, hr, hng⟩
    have hp : objLitPropsOk ruleMap (objectEntries data) = false := by
      cases h0 : objLitPropsOk ruleMap (objectEntries data) with
      | false => rfl
      | true =>
          obtain ⟨r2, hr2, w, hw⟩ := (objLitPropsOk_iff _ _).mp h0 e he
          rw [hr] at hr2
          obtain rfl : r = r2 := Option.some.inj hr2
          rw [hng] at hw
          cases hw
    rw [objLit_validate_eq _ _ _ hguard]
    simp [hp, reportNg]

/-- Witness for claim C3: the object rule with its only field optional
accepts the empty object. -/
theorem claim_C3_witness :
    (newRule_ObjLit [("nest", rule_Boolean)] (some ["nest"])).validate
        (.obj []) = .ok (.obj []) :=
  (claim_C3_objLit_optionalKeys [("nest", rule_Boolean)] ["nest"] (.obj []) rfl).2.1
    (by
      intro e he
      simp [objectEntries] at he)
    (by
      intro f hf hopt
      simp at hf
      subst hf
      simp at hopt)

/-- Witness for claim C6: the null rule accepts the undefined value. -/
theorem claim_C6_witness :
    rule_Null.validate .undef = .ok .undef :=
  ((claim_C6_primitive_rules
      .undef).2.2.2.2.2.2.2.2.2.2.2.2.1).mpr (Or.inr rfl)

/-- Witness for claim C10: the two object rules agree on a concrete
number input. -/
theorem claim_C10_witness :
    (newRule_ObjLit [("a", rule_String)] (some [])).validate (.num 1) =
      (newRule_ObjLit [("a", rule_String)] none).validate (.num 1) :=
  claim_C10_empty_optionalKeys_equiv [("a", rule_String)] (.num 1)

end DataRule
